import Mathlib

/-!
Shallow embedding of `src/alvr/server/cpp/alvr_server/include/openvr_math.h`.

The source is a header of pure arithmetic over OpenVR value types
(`vr::HmdQuaternion_t`, `vr::HmdVector3d_t`, `vr::HmdVector3_t`,
`vr::HmdVector4_t`, `vr::HmdMatrix34_t`, `vr::HmdMatrix44_t`).  The claims
under verification are about the exact arithmetic the formulas denote, so the
value types are embedded parametrically over a scalar type `α`:

* `ℚ` instantiates the claims that quantify over arbitrary inputs with exact
  arithmetic and need decidable evaluation at witnesses;
* `ℝ` instantiates the constructors that use `cos`/`sin`/`sqrt`;
* `FP` (defined below) is an extended-rational model of IEEE-754 special
  values (infinities and NaN, exact finite values) used for the
  error-propagation claim about unvalidated degenerate inputs.

Fixed-size C arrays are embedded as `Fin n → α` functions (for the matrix and
4-vector types, whose claims index entries) or as one field per slot (for the
3-vector types, whose entries `v[0] v[1] v[2]` are only ever named
individually in the source).
-/

/-- Embedding of `vr::HmdQuaternion_t`: four scalars `w x y z`
(`double` in the source). -/
structure HmdQuaternion_t (α : Type) where
  w : α
  x : α
  y : α
  z : α
deriving DecidableEq

/-- Embedding of `vr::HmdVector3d_t` (and of the single-precision
`vr::HmdVector3_t`, which has the same shape): the array `v[3]` unrolled into
one field per entry. -/
structure HmdVector3d_t (α : Type) where
  v0 : α
  v1 : α
  v2 : α
deriving DecidableEq

/-- Embedding of `vr::HmdVector4_t`: the array `v[4]` as a function on
`Fin 4`. -/
structure HmdVector4_t (α : Type) where
  v : Fin 4 → α

/-- Embedding of `vr::HmdMatrix34_t`: the array `m[3][4]` as a curried
function (row index in `Fin 3`, column index in `Fin 4`). -/
@[ext]
structure HmdMatrix34_t (α : Type) where
  m : Fin 3 → Fin 4 → α

/-- Embedding of `vr::HmdMatrix44_t`: the array `m[4][4]` as a curried
function. -/
@[ext]
structure HmdMatrix44_t (α : Type) where
  m : Fin 4 → Fin 4 → α

/-- Source lines 26-33: `operator*(const vr::HmdQuaternion_t&, const
vr::HmdQuaternion_t&)`, the Hamilton product, component by component as
written. -/
def quatMul {α : Type} [CommRing α] (lhs rhs : HmdQuaternion_t α) :
    HmdQuaternion_t α :=
  { w := (lhs.w * rhs.w) - (lhs.x * rhs.x) - (lhs.y * rhs.y) - (lhs.z * rhs.z)
    x := (lhs.w * rhs.x) + (lhs.x * rhs.w) + (lhs.y * rhs.z) - (lhs.z * rhs.y)
    y := (lhs.w * rhs.y) + (lhs.y * rhs.w) + (lhs.z * rhs.x) - (lhs.x * rhs.z)
    z := (lhs.w * rhs.z) + (lhs.z * rhs.w) + (lhs.x * rhs.y) - (lhs.y * rhs.x) }

instance {α : Type} [CommRing α] : Mul (HmdQuaternion_t α) :=
  ⟨quatMul⟩

/-- The claim C1's statement of the Hamilton product, written out from the
spec sentence (w = w1w2 − x1x2 − y1y2 − z1z2; x = w1x2 + x1w2 + y1z2 − z1y2;
y = w1y2 + y1w2 + z1x2 − x1z2; z = w1z2 + z1w2 + x1y2 − y1x2). -/
def hamiltonSpec {α : Type} [CommRing α] (q1 q2 : HmdQuaternion_t α) :
    HmdQuaternion_t α :=
  { w := q1.w * q2.w - q1.x * q2.x - q1.y * q2.y - q1.z * q2.z
    x := q1.w * q2.x + q1.x * q2.w + q1.y * q2.z - q1.z * q2.y
    y := q1.w * q2.y + q1.y * q2.w + q1.z * q2.x - q1.x * q2.z
    z := q1.w * q2.z + q1.z * q2.w + q1.x * q2.y - q1.y * q2.x }

namespace vrmath

/-- Source lines 103-111: `vrmath::quaternionFromRotationX`, a half-angle
rotation about the X axis. -/
noncomputable def quaternionFromRotationX (rot : ℝ) : HmdQuaternion_t ℝ :=
  let ha := rot / 2
  ⟨Real.cos ha, Real.sin ha, 0, 0⟩

/-- Source lines 113-121: `vrmath::quaternionFromRotationY`. -/
noncomputable def quaternionFromRotationY (rot : ℝ) : HmdQuaternion_t ℝ :=
  let ha := rot / 2
  ⟨Real.cos ha, 0, Real.sin ha, 0⟩

/-- Source lines 123-131: `vrmath::quaternionFromRotationZ`. -/
noncomputable def quaternionFromRotationZ (rot : ℝ) : HmdQuaternion_t ℝ :=
  let ha := rot / 2
  ⟨Real.cos ha, 0, 0, Real.sin ha⟩

/-- Source lines 133-135: `vrmath::quaternionFromYawPitchRoll`, the product
`quaternionFromRotationY(yaw) * quaternionFromRotationX(pitch) *
quaternionFromRotationZ(roll)` exactly as written (left-associated). -/
noncomputable def quaternionFromYawPitchRoll (yaw pitch roll : ℝ) :
    HmdQuaternion_t ℝ :=
  quaternionFromRotationY yaw * quaternionFromRotationX pitch *
    quaternionFromRotationZ roll

/-- Source lines 137-172: `vrmath::quaternionFromRotationMatrix`.  The four
extraction branches and the final in-place negation of `q.x`, `q.y`, `q.z`
are transcribed directly; `sqrt` is `Real.sqrt`. -/
noncomputable def quaternionFromRotationMatrix (mat : HmdMatrix34_t ℝ) :
    HmdQuaternion_t ℝ :=
  let a := mat.m
  let trace := a 0 0 + a 1 1 + a 2 2
  let q : HmdQuaternion_t ℝ :=
    if trace > 0 then
      let s := 0.5 / Real.sqrt (trace + 1.0)
      ⟨0.25 / s, (a 1 2 - a 2 1) * s, (a 2 0 - a 0 2) * s,
        (a 0 1 - a 1 0) * s⟩
    else if a 0 0 > a 1 1 ∧ a 0 0 > a 2 2 then
      let s := 2.0 * Real.sqrt (1.0 + a 0 0 - a 1 1 - a 2 2)
      ⟨(a 1 2 - a 2 1) / s, 0.25 * s, (a 1 0 + a 0 1) / s,
        (a 2 0 + a 0 2) / s⟩
    else if a 1 1 > a 2 2 then
      let s := 2.0 * Real.sqrt (1.0 + a 1 1 - a 0 0 - a 2 2)
      ⟨(a 2 0 - a 0 2) / s, (a 1 0 + a 0 1) / s, 0.25 * s,
        (a 2 1 + a 1 2) / s⟩
    else
      let s := 2.0 * Real.sqrt (1.0 + a 2 2 - a 0 0 - a 1 1)
      ⟨(a 0 1 - a 1 0) / s, (a 2 0 + a 0 2) / s, (a 2 1 + a 1 2) / s,
        0.25 * s⟩
  ⟨q.w, -q.x, -q.y, -q.z⟩

/-- Source lines 174-181: `vrmath::quaternionConjugate`, negating the three
imaginary components. -/
def quaternionConjugate {α : Type} [CommRing α] (quat : HmdQuaternion_t α) :
    HmdQuaternion_t α :=
  { w := quat.w
    x := -quat.x
    y := -quat.y
    z := -quat.z }

/-- Source lines 183-193: `vrmath::quaternionRotateVector(quat, vector,
reverse)` on a `vr::HmdVector3d_t`.  The vector is embedded as the pure
quaternion `(0, v0, v1, v2)` and the sandwich product is taken; the source's
defaulted `reverse = false` argument is passed explicitly here. -/
def quaternionRotateVector {α : Type} [CommRing α] (quat : HmdQuaternion_t α)
    (vector : HmdVector3d_t α) (reverse : Bool) : HmdVector3d_t α :=
  if reverse then
    let pin : HmdQuaternion_t α := ⟨0, vector.v0, vector.v1, vector.v2⟩
    let pout := vrmath.quaternionConjugate quat * pin * quat
    ⟨pout.x, pout.y, pout.z⟩
  else
    let pin : HmdQuaternion_t α := ⟨0, vector.v0, vector.v1, vector.v2⟩
    let pout := quat * pin * vrmath.quaternionConjugate quat
    ⟨pout.x, pout.y, pout.z⟩

/-- Source lines 195-205: the `vrmath::quaternionRotateVector` overload that
takes a caller-precomputed inverse `quatInv` instead of computing the
conjugate itself. -/
def quaternionRotateVectorInv {α : Type} [CommRing α]
    (quat quatInv : HmdQuaternion_t α) (vector : HmdVector3d_t α)
    (reverse : Bool) : HmdVector3d_t α :=
  if reverse then
    let pin : HmdQuaternion_t α := ⟨0, vector.v0, vector.v1, vector.v2⟩
    let pout := quatInv * pin * quat
    ⟨pout.x, pout.y, pout.z⟩
  else
    let pin : HmdQuaternion_t α := ⟨0, vector.v0, vector.v1, vector.v2⟩
    let pout := quat * pin * quatInv
    ⟨pout.x, pout.y, pout.z⟩

/-- Source lines 207-217: the `vrmath::quaternionRotateVector` overload on a
raw `double[3]` array, embedded as `Fin 3 → α`. -/
def quaternionRotateVectorArray {α : Type} [CommRing α]
    (quat : HmdQuaternion_t α) (vector : Fin 3 → α) (reverse : Bool) :
    HmdVector3d_t α :=
  if reverse then
    let pin : HmdQuaternion_t α := ⟨0, vector 0, vector 1, vector 2⟩
    let pout := vrmath.quaternionConjugate quat * pin * quat
    ⟨pout.x, pout.y, pout.z⟩
  else
    let pin : HmdQuaternion_t α := ⟨0, vector 0, vector 1, vector 2⟩
    let pout := quat * pin * vrmath.quaternionConjugate quat
    ⟨pout.x, pout.y, pout.z⟩

/-- Source lines 219-229: the `vrmath::quaternionRotateVector` overload on a
raw `double[3]` array with a caller-precomputed inverse. -/
def quaternionRotateVectorInvArray {α : Type} [CommRing α]
    (quat quatInv : HmdQuaternion_t α) (vector : Fin 3 → α)
    (reverse : Bool) : HmdVector3d_t α :=
  if reverse then
    let pin : HmdQuaternion_t α := ⟨0, vector 0, vector 1, vector 2⟩
    let pout := quatInv * pin * quat
    ⟨pout.x, pout.y, pout.z⟩
  else
    let pin : HmdQuaternion_t α := ⟨0, vector 0, vector 1, vector 2⟩
    let pout := quat * pin * quatInv
    ⟨pout.x, pout.y, pout.z⟩

/-- Source lines 231-242: `vrmath::matMul33` on two `vr::HmdMatrix34_t`.
The C++ declares `vr::HmdMatrix34_t result;` without initialising it and then
writes only the nine entries of the leading 3x3 block, so the translation
column of the result holds whatever indeterminate values the stack held; that
unwritten content is modelled by the extra `junk` argument.  Each written
entry accumulates from `0.0f` in the loop's `k` order. -/
def matMul33 {α : Type} [CommRing α] (junk : Fin 3 → α)
    (a b : HmdMatrix34_t α) : HmdMatrix34_t α :=
  ⟨fun i j =>
    if (j : ℕ) < 3 then
      ((0 + a.m i 0 * b.m 0 j) + a.m i 1 * b.m 1 j) + a.m i 2 * b.m 2 j
    else junk i⟩

/-- Source lines 288-299: `vrmath::transposeMul33`, writing the transposed
3x3 block entry by entry and then copying the translation column (column 3)
unchanged. -/
def transposeMul33 {α : Type} (a : HmdMatrix34_t α) : HmdMatrix34_t α :=
  ⟨fun i j =>
    if h : (j : ℕ) < 3 then a.m ⟨j, h⟩ i.castSucc
    else a.m i j⟩

/-- Source lines 301-310: `vrmath::matMul44`, a 4-vector times a 4x4 matrix.
`result` starts as `{{0, 0, 0, 0}}` and entry `i` accumulates
`a.v[k] * b.m[i][k]` for `k = 0..3` in order. -/
def matMul44 {α : Type} [Add α] [Mul α] [OfNat α 0] (a : HmdVector4_t α)
    (b : HmdMatrix44_t α) : HmdVector4_t α :=
  ⟨fun i =>
    (((0 + a.v 0 * b.m i 0) + a.v 1 * b.m i 1) + a.v 2 * b.m i 2) +
      a.v 3 * b.m i 3⟩

/-- Source lines 312-331: `vrmath::makeProjection` filling a 4x4 off-axis
perspective matrix through its `out` parameter; embedded as a function
returning the fully written matrix (every one of the 16 entries is
assigned).  The reciprocals `idx`, `idy`, `idz` and offsets `sx`, `sy` are
the source's local constants. -/
def makeProjection {α : Type} [Add α] [Sub α] [Mul α] [Div α] [Neg α]
    [OfNat α 0] [OfNat α 1] [OfNat α 2]
    (fLeft fRight fTop fBottom zNear zFar : α) : HmdMatrix44_t α :=
  let idx := 1 / (fRight - fLeft)
  let idy := 1 / (fBottom - fTop)
  let idz := 1 / (zNear - zFar)
  let sx := fRight + fLeft
  let sy := fBottom + fTop
  ⟨![![2 * idx, 0, sx * idx, 0],
     ![0, 2 * idy, sy * idy, 0],
     ![0, 0, (zFar + zNear) * idz, 2 * zFar * zNear * idz],
     ![0, 0, -1, 0]]⟩

/-- Source lines 342-350: `vrmath::project`: multiply the homogeneous point
by the projection matrix, then scale x, y, z by the reciprocal of the
resulting w. -/
def project {α : Type} [Add α] [Mul α] [Div α] [OfNat α 0] [OfNat α 1]
    (proj_mat : HmdMatrix44_t α) (p : HmdVector4_t α) : HmdVector3d_t α :=
  let ndcP := vrmath.matMul44 p proj_mat
  let pd := 1 / ndcP.v 3
  ⟨ndcP.v 0 * pd, ndcP.v 1 * pd, ndcP.v 2 * pd⟩

end vrmath

/-- A 3x4 matrix whose leading 3x3 block is the identity; the translation
column is an arbitrary `tcol`, which the left-identity law of claim C8 does
not depend on.  This is a claim-side definition (the source has no identity
constant). -/
def identity3x4 {α : Type} [CommRing α] (tcol : Fin 3 → α) :
    HmdMatrix34_t α :=
  ⟨fun i j => if (j : ℕ) < 3 then (if (i : ℕ) = (j : ℕ) then 1 else 0)
    else tcol i⟩

/-- Claim-side description of the trace branch of Shepperd's method, before
the final sign flip. -/
noncomputable def shepperdTraceBranch (mat : HmdMatrix34_t ℝ) :
    HmdQuaternion_t ℝ :=
  let a := mat.m
  let s := 0.5 / Real.sqrt ((a 0 0 + a 1 1 + a 2 2) + 1.0)
  ⟨0.25 / s, (a 1 2 - a 2 1) * s, (a 2 0 - a 0 2) * s, (a 0 1 - a 1 0) * s⟩

/-- Claim-side description of the branch for the largest diagonal entry
`m[0][0]`, before the final sign flip. -/
noncomputable def shepperdBranchX (mat : HmdMatrix34_t ℝ) :
    HmdQuaternion_t ℝ :=
  let a := mat.m
  let s := 2.0 * Real.sqrt (1.0 + a 0 0 - a 1 1 - a 2 2)
  ⟨(a 1 2 - a 2 1) / s, 0.25 * s, (a 1 0 + a 0 1) / s, (a 2 0 + a 0 2) / s⟩

/-- Claim-side description of the branch for the largest diagonal entry
`m[1][1]`, before the final sign flip. -/
noncomputable def shepperdBranchY (mat : HmdMatrix34_t ℝ) :
    HmdQuaternion_t ℝ :=
  let a := mat.m
  let s := 2.0 * Real.sqrt (1.0 + a 1 1 - a 0 0 - a 2 2)
  ⟨(a 2 0 - a 0 2) / s, (a 1 0 + a 0 1) / s, 0.25 * s, (a 2 1 + a 1 2) / s⟩

/-- Claim-side description of the branch for the largest diagonal entry
`m[2][2]`, before the final sign flip. -/
noncomputable def shepperdBranchZ (mat : HmdMatrix34_t ℝ) :
    HmdQuaternion_t ℝ :=
  let a := mat.m
  let s := 2.0 * Real.sqrt (1.0 + a 2 2 - a 0 0 - a 1 1)
  ⟨(a 0 1 - a 1 0) / s, (a 2 0 + a 0 2) / s, (a 2 1 + a 1 2) / s, 0.25 * s⟩

/-- The deliberate sign flip the spec describes: negate x, y, z and keep w. -/
def negateXYZ {α : Type} [CommRing α] (q : HmdQuaternion_t α) :
    HmdQuaternion_t α :=
  ⟨q.w, -q.x, -q.y, -q.z⟩

/-- Model of an IEEE-754 floating-point value for the error-propagation
claim: an exact finite value, one of the two infinities, or NaN.  Rounding
is irrelevant to the claim (the degenerate divisors are exact zeros arising
as `x - x`, which IEEE rounds to `+0`), so finite values are exact rationals
and the model has no negative zero; division by the zero produced by `x - x`
therefore follows the IEEE `+0` rule. -/
inductive FP where
  | fin : ℚ → FP
  | inf : FP
  | ninf : FP
  | nan : FP
deriving DecidableEq

/-- IEEE addition on the model: NaN propagates, opposite infinities give
NaN, an infinity dominates finite values. -/
def FP.add : FP → FP → FP
  | .fin p, .fin q => .fin (p + q)
  | .fin _, .inf => .inf
  | .fin _, .ninf => .ninf
  | .fin _, .nan => .nan
  | .inf, .fin _ => .inf
  | .inf, .inf => .inf
  | .inf, .ninf => .nan
  | .inf, .nan => .nan
  | .ninf, .fin _ => .ninf
  | .ninf, .inf => .nan
  | .ninf, .ninf => .ninf
  | .ninf, .nan => .nan
  | .nan, _ => .nan

/-- IEEE negation on the model. -/
def FP.neg : FP → FP
  | .fin p => .fin (-p)
  | .inf => .ninf
  | .ninf => .inf
  | .nan => .nan

/-- IEEE subtraction on the model, as addition of the negation. -/
def FP.sub (a b : FP) : FP := FP.add a (FP.neg b)

/-- IEEE multiplication on the model: NaN propagates, zero times an
infinity is NaN, otherwise infinities follow the sign rule. -/
def FP.mul : FP → FP → FP
  | .fin p, .fin q => .fin (p * q)
  | .fin p, .inf => if p = 0 then .nan else if 0 < p then .inf else .ninf
  | .fin p, .ninf => if p = 0 then .nan else if 0 < p then .ninf else .inf
  | .fin _, .nan => .nan
  | .inf, .fin q => if q = 0 then .nan else if 0 < q then .inf else .ninf
  | .inf, .inf => .inf
  | .inf, .ninf => .ninf
  | .inf, .nan => .nan
  | .ninf, .fin q => if q = 0 then .nan else if 0 < q then .ninf else .inf
  | .ninf, .inf => .ninf
  | .ninf, .ninf => .inf
  | .ninf, .nan => .nan
  | .nan, _ => .nan

/-- IEEE division on the model: a nonzero finite value divided by zero is a
signed infinity, zero over zero is NaN, NaN propagates, infinity over
infinity is NaN. -/
def FP.div : FP → FP → FP
  | .fin p, .fin q =>
      if q = 0 then (if p = 0 then .nan else if 0 < p then .inf else .ninf)
      else .fin (p / q)
  | .fin _, .inf => .fin 0
  | .fin _, .ninf => .fin 0
  | .fin _, .nan => .nan
  | .inf, .fin q => if q < 0 then .ninf else .inf
  | .inf, .inf => .nan
  | .inf, .ninf => .nan
  | .inf, .nan => .nan
  | .ninf, .fin q => if q < 0 then .inf else .ninf
  | .ninf, .inf => .nan
  | .ninf, .ninf => .nan
  | .ninf, .nan => .nan
  | .nan, _ => .nan

/-- Finiteness test on the model: true exactly on finite values. -/
def FP.isFinite : FP → Bool
  | .fin _ => true
  | _ => false

instance : Add FP := ⟨FP.add⟩

instance : Sub FP := ⟨FP.sub⟩

instance : Neg FP := ⟨FP.neg⟩

instance : Mul FP := ⟨FP.mul⟩

instance : Div FP := ⟨FP.div⟩

instance (n : ℕ) [OfNat ℚ n] : OfNat FP n := ⟨FP.fin (OfNat.ofNat n)⟩

/-- Unfolding lemma for the `Mul` instance of `HmdQuaternion_t`. -/
theorem quat_mul_def {α : Type} [CommRing α] (l r : HmdQuaternion_t α) :
    l * r = quatMul l r := rfl

/-- Unfolding lemma for the `Add` instance of `FP`. -/
theorem fp_add_def (a b : FP) : a + b = FP.add a b := rfl

/-- Unfolding lemma for the `Sub` instance of `FP`. -/
theorem fp_sub_def (a b : FP) : a - b = FP.sub a b := rfl

/-- Unfolding lemma for the `Mul` instance of `FP`. -/
theorem fp_mul_def (a b : FP) : a * b = FP.mul a b := rfl

/-- Unfolding lemma for the `Div` instance of `FP`. -/
theorem fp_div_def (a b : FP) : a / b = FP.div a b := rfl

/-- Unfolding lemma for the `OfNat` instances of `FP`. -/
theorem fp_ofNat_def (n : ℕ) [OfNat ℚ n] :
    (OfNat.ofNat n : FP) = FP.fin (OfNat.ofNat n) := rfl

/-- C1: the Hamilton product `operator*` computes exactly the four components
the spec gives, and it is not commutative in general. -/
theorem C1_hamilton_product :
    (∀ q1 q2 : HmdQuaternion_t ℚ, q1 * q2 = hamiltonSpec q1 q2) ∧
    (∃ q1 q2 : HmdQuaternion_t ℚ, q1 * q2 ≠ q2 * q1) := by
  constructor
  · intro q1 q2
    rfl
  · refine ⟨⟨0, 1, 0, 0⟩, ⟨0, 0, 1, 0⟩, ?_⟩
    simp [quat_mul_def, quatMul, HmdQuaternion_t.mk.injEq]
    norm_num

/-- C2: `quaternionFromRotationMatrix` selects its branch by Shepperd's rule
on the top-left 3x3 block (trace branch when the trace is positive, else the
branch of the largest diagonal entry) and returns the extracted quaternion
with x, y, z negated and w unchanged. -/
theorem C2_shepperd_with_sign_flip (mat : HmdMatrix34_t ℝ) :
    vrmath.quaternionFromRotationMatrix mat =
      negateXYZ
        (if mat.m 0 0 + mat.m 1 1 + mat.m 2 2 > 0 then
          shepperdTraceBranch mat
        else if mat.m 0 0 > mat.m 1 1 ∧ mat.m 0 0 > mat.m 2 2 then
          shepperdBranchX mat
        else if mat.m 1 1 > mat.m 2 2 then shepperdBranchY mat
        else shepperdBranchZ mat) := by
  simp only [vrmath.quaternionFromRotationMatrix, negateXYZ,
    shepperdTraceBranch, shepperdBranchX, shepperdBranchY, shepperdBranchZ]


/-- C3: `quaternionFromYawPitchRoll` is the Hamilton product
`Ry(yaw) * Rx(pitch) * Rz(roll)` in exactly that order, and at (0,0,0) it is
the identity quaternion. -/
theorem C3_yaw_pitch_roll_order :
    (∀ yaw pitch roll : ℝ,
      vrmath.quaternionFromYawPitchRoll yaw pitch roll =
        vrmath.quaternionFromRotationY yaw *
          vrmath.quaternionFromRotationX pitch *
          vrmath.quaternionFromRotationZ roll) ∧
    vrmath.quaternionFromYawPitchRoll 0 0 0 = ⟨1, 0, 0, 0⟩ := by
  refine ⟨fun yaw pitch roll => rfl, ?_⟩
  simp [vrmath.quaternionFromYawPitchRoll, vrmath.quaternionFromRotationX,
    vrmath.quaternionFromRotationY, vrmath.quaternionFromRotationZ,
    quat_mul_def, quatMul, HmdQuaternion_t.mk.injEq]

/-- C4: rotating a vector forward and then in reverse by the same unit
quaternion gives the vector back exactly. -/
theorem C4_rotate_roundtrip (q : HmdQuaternion_t ℚ) (v : HmdVector3d_t ℚ)
    (h : q.w ^ 2 + q.x ^ 2 + q.y ^ 2 + q.z ^ 2 = 1) :
    vrmath.quaternionRotateVector q
      (vrmath.quaternionRotateVector q v false) true = v := by
  obtain ⟨w, x, y, z⟩ := q
  obtain ⟨a, b, c⟩ := v
  simp only [HmdQuaternion_t.w, HmdQuaternion_t.x, HmdQuaternion_t.y,
    HmdQuaternion_t.z] at h
  simp only [vrmath.quaternionRotateVector, vrmath.quaternionConjugate,
    quat_mul_def, quatMul, if_true, Bool.false_eq_true, if_false,
    HmdVector3d_t.mk.injEq]
  refine ⟨?_, ?_, ?_⟩
  · linear_combination (w ^ 2 + x ^ 2 + y ^ 2 + z ^ 2 + 1) * a * h
  · linear_combination (w ^ 2 + x ^ 2 + y ^ 2 + z ^ 2 + 1) * b * h
  · linear_combination (w ^ 2 + x ^ 2 + y ^ 2 + z ^ 2 + 1) * c * h

/-- Witness for C4 at the unit quaternion (1,0,0,0) and the vector
(1,2,3). -/
theorem C4_rotate_roundtrip_witness :
    ((1 : ℚ) ^ 2 + 0 ^ 2 + 0 ^ 2 + 0 ^ 2 = 1) ∧
    vrmath.quaternionRotateVector (⟨1, 0, 0, 0⟩ : HmdQuaternion_t ℚ)
      (vrmath.quaternionRotateVector ⟨1, 0, 0, 0⟩ ⟨1, 2, 3⟩ false) true =
      ⟨1, 2, 3⟩ :=
  ⟨by simp, C4_rotate_roundtrip ⟨1, 0, 0, 0⟩ ⟨1, 2, 3⟩ (by simp)⟩

/-- C9: the four `quaternionRotateVector` overloads agree: the
precomputed-inverse overload applied to the conjugate equals the overload
that conjugates internally, and each raw-array overload equals the
vector-struct overload on componentwise-equal input. -/
theorem C9_overloads_agree :
    (∀ (q : HmdQuaternion_t ℚ) (v : HmdVector3d_t ℚ) (reverse : Bool),
      vrmath.quaternionRotateVectorInv q (vrmath.quaternionConjugate q) v
          reverse =
        vrmath.quaternionRotateVector q v reverse) ∧
    (∀ (q : HmdQuaternion_t ℚ) (arr : Fin 3 → ℚ) (reverse : Bool),
      vrmath.quaternionRotateVectorArray q arr reverse =
        vrmath.quaternionRotateVector q ⟨arr 0, arr 1, arr 2⟩ reverse) ∧
    (∀ (q qInv : HmdQuaternion_t ℚ) (arr : Fin 3 → ℚ) (reverse : Bool),
      vrmath.quaternionRotateVectorInvArray q qInv arr reverse =
        vrmath.quaternionRotateVectorInv q qInv ⟨arr 0, arr 1, arr 2⟩
          reverse) := by
  refine ⟨fun q v r => ?_, fun q arr r => ?_, fun q qInv arr r => ?_⟩ <;>
    cases r <;> rfl

/-- C7: `transposeMul33` swaps the 3x3 block entries, copies the translation
column unchanged, and is an involution on the whole 3x4 matrix. -/
theorem C7_transpose_involution :
    (∀ (a : HmdMatrix34_t ℚ) (i k : Fin 3),
      (vrmath.transposeMul33 a).m i k.castSucc = a.m k i.castSucc) ∧
    (∀ (a : HmdMatrix34_t ℚ) (i : Fin 3),
      (vrmath.transposeMul33 a).m i 3 = a.m i 3) ∧
    (∀ a : HmdMatrix34_t ℚ, vrmath.transposeMul33 (vrmath.transposeMul33 a) = a) := by
  refine ⟨fun a i k => ?_, fun a i => rfl, fun a => ?_⟩
  · simp [vrmath.transposeMul33]
  · ext i j
    by_cases hj : (j : ℕ) < 3
    · simp [vrmath.transposeMul33, hj, Fin.castSucc_mk, Fin.eta]
    · simp [vrmath.transposeMul33, hj]

/-- C8: the 3x3 block of `matMul33` is the standard matrix product, the
translation column of the result is exactly the indeterminate initial
content (independent of both operands), and the identity 3x3 block is a
left identity for the block product. -/
theorem C8_matmul33_block :
    (∀ (junk : Fin 3 → ℚ) (a b : HmdMatrix34_t ℚ) (i j : Fin 3),
      (vrmath.matMul33 junk a b).m i j.castSucc =
        ∑ k : Fin 3, a.m i k.castSucc * b.m k j.castSucc) ∧
    (∀ (junk : Fin 3 → ℚ) (a b : HmdMatrix34_t ℚ) (i : Fin 3),
      (vrmath.matMul33 junk a b).m i 3 = junk i) ∧
    (∀ (junk tcol : Fin 3 → ℚ) (M : HmdMatrix34_t ℚ) (i j : Fin 3),
      (vrmath.matMul33 junk (identity3x4 tcol) M).m i j.castSucc =
        M.m i j.castSucc) := by
  have hc2 : (Fin.castSucc 2 : Fin 4) = 2 := rfl
  refine ⟨fun junk a b i j => ?_, fun junk a b i => rfl,
    fun junk tcol M i j => ?_⟩
  · simp [vrmath.matMul33, Fin.sum_univ_three, hc2]
  · fin_cases i <;>
      simp [vrmath.matMul33, identity3x4]

/-- C5: `project` returns the x, y, z components of `matMul44(p, P)` each
divided by that product's w component, and `matMul44` dots the vector
against row `i` of the matrix: `result[i] = Σ_k a[k] * b[i][k]`. -/
theorem C5_project_divides :
    (∀ (P : HmdMatrix44_t ℚ) (p : HmdVector4_t ℚ),
      vrmath.project P p =
        ⟨(vrmath.matMul44 p P).v 0 / (vrmath.matMul44 p P).v 3,
         (vrmath.matMul44 p P).v 1 / (vrmath.matMul44 p P).v 3,
         (vrmath.matMul44 p P).v 2 / (vrmath.matMul44 p P).v 3⟩) ∧
    (∀ (a : HmdVector4_t ℚ) (b : HmdMatrix44_t ℚ) (i : Fin 4),
      (vrmath.matMul44 a b).v i = ∑ k : Fin 4, a.v k * b.m i k) := by
  constructor
  · intro P p
    simp [vrmath.project, mul_one_div, div_eq_mul_inv]
  · intro a b i
    simp [vrmath.matMul44, Fin.sum_univ_four]

/-- C10: for every quaternion (unit or not) the scalar component of the
sandwich products `q * (0,v) * conj q` and `conj q * (0,v) * q` is exactly
zero, so `quaternionRotateVector` dropping the `w` component loses
nothing. -/
theorem C10_sandwich_scalar_zero (q : HmdQuaternion_t ℚ)
    (v : HmdVector3d_t ℚ) :
    (q * ⟨0, v.v0, v.v1, v.v2⟩ * vrmath.quaternionConjugate q).w = 0 ∧
    (vrmath.quaternionConjugate q * ⟨0, v.v0, v.v1, v.v2⟩ * q).w = 0 := by
  obtain ⟨w, x, y, z⟩ := q
  obtain ⟨a, b, c⟩ := v
  simp only [quat_mul_def, quatMul, vrmath.quaternionConjugate]
  constructor <;> ring

/-- C6: degenerate inputs are not validated: `makeProjection` with
`left == right`, `top == bottom`, or `near == far` still returns a matrix,
with the affected entry a non-finite IEEE value (infinity or NaN), and
`project` of a point whose transformed homogeneous w is zero returns a
vector all of whose components are non-finite; nothing is trapped or
corrected. -/
theorem C6_degenerate_inputs_propagate :
    (∀ l t b n f : FP,
      ((vrmath.makeProjection l l t b n f).m 0 0).isFinite = false) ∧
    (∀ l r t n f : FP,
      ((vrmath.makeProjection l r t t n f).m 1 1).isFinite = false) ∧
    (∀ l r t b n : FP,
      ((vrmath.makeProjection l r t b n n).m 2 2).isFinite = false) ∧
    (∀ (P : HmdMatrix44_t FP) (p : HmdVector4_t FP),
      (vrmath.matMul44 p P).v 3 = FP.fin 0 →
        (vrmath.project P p).v0.isFinite = false ∧
        (vrmath.project P p).v1.isFinite = false ∧
        (vrmath.project P p).v2.isFinite = false) := by
  refine ⟨fun l t b n f => ?_, fun l r t n f => ?_, fun l r t b n => ?_,
    fun P p h => ?_⟩
  · have e : (vrmath.makeProjection l l t b n f).m 0 0 =
        2 * (1 / (l - l)) := rfl
    rw [e]
    cases l <;>
      norm_num [fp_mul_def, fp_div_def, fp_sub_def, fp_ofNat_def, FP.mul,
        FP.div, FP.sub, FP.add, FP.neg, FP.isFinite]
  · have e : (vrmath.makeProjection l r t t n f).m 1 1 =
        2 * (1 / (t - t)) := rfl
    rw [e]
    cases t <;>
      norm_num [fp_mul_def, fp_div_def, fp_sub_def, fp_ofNat_def, FP.mul,
        FP.div, FP.sub, FP.add, FP.neg, FP.isFinite]
  · have e : (vrmath.makeProjection l r t b n n).m 2 2 =
        (n + n) * (1 / (n - n)) := rfl
    rw [e]
    cases n <;>
      norm_num [fp_mul_def, fp_div_def, fp_sub_def, fp_add_def,
        fp_ofNat_def, FP.mul, FP.div, FP.sub, FP.add, FP.neg,
        FP.isFinite] <;>
      split_ifs <;> rfl
  · have epd : (1 : FP) / (vrmath.matMul44 p P).v 3 = FP.inf := by
      rw [h]
      norm_num [fp_div_def, fp_ofNat_def, FP.div]
    have e0 : (vrmath.project P p).v0 =
        (vrmath.matMul44 p P).v 0 * ((1 : FP) / (vrmath.matMul44 p P).v 3) :=
      rfl
    have e1 : (vrmath.project P p).v1 =
        (vrmath.matMul44 p P).v 1 * ((1 : FP) / (vrmath.matMul44 p P).v 3) :=
      rfl
    have e2 : (vrmath.project P p).v2 =
        (vrmath.matMul44 p P).v 2 * ((1 : FP) / (vrmath.matMul44 p P).v 3) :=
      rfl
    refine ⟨?_, ?_, ?_⟩
    · rw [e0, epd]
      cases (vrmath.matMul44 p P).v 0 <;>
        simp [fp_mul_def, FP.mul, FP.isFinite] <;> split_ifs <;> rfl
    · rw [e1, epd]
      cases (vrmath.matMul44 p P).v 1 <;>
        simp [fp_mul_def, FP.mul, FP.isFinite] <;> split_ifs <;> rfl
    · rw [e2, epd]
      cases (vrmath.matMul44 p P).v 2 <;>
        simp [fp_mul_def, FP.mul, FP.isFinite] <;> split_ifs <;> rfl

/-- Witness for C6 at the zero projection matrix and the zero point, whose
transformed homogeneous w is zero. -/
theorem C6_degenerate_inputs_propagate_witness :
    (vrmath.matMul44 (⟨fun _ => FP.fin 0⟩ : HmdVector4_t FP)
        (⟨fun _ _ => FP.fin 0⟩ : HmdMatrix44_t FP)).v 3 = FP.fin 0 ∧
    ((vrmath.project (⟨fun _ _ => FP.fin 0⟩ : HmdMatrix44_t FP)
        (⟨fun _ => FP.fin 0⟩ : HmdVector4_t FP)).v0.isFinite = false ∧
      (vrmath.project (⟨fun _ _ => FP.fin 0⟩ : HmdMatrix44_t FP)
        (⟨fun _ => FP.fin 0⟩ : HmdVector4_t FP)).v1.isFinite = false ∧
      (vrmath.project (⟨fun _ _ => FP.fin 0⟩ : HmdMatrix44_t FP)
        (⟨fun _ => FP.fin 0⟩ : HmdVector4_t FP)).v2.isFinite = false) :=
  ⟨by simp [vrmath.matMul44, fp_add_def, fp_mul_def, fp_ofNat_def, FP.add,
      FP.mul],
    C6_degenerate_inputs_propagate.2.2.2 _ _
      (by simp [vrmath.matMul44, fp_add_def, fp_mul_def, fp_ofNat_def,
        FP.add, FP.mul])⟩
